import Mathlib

/-!
Verification development for the sails-hook-quest job scheduler.

The JavaScript sources modelled here are the four cooperating core modules:
core/scheduler.js (getNextRunTime and friends), core/job-control.js
(scheduleJob, stopJob, startJobs, pauseJob, resumeJob), core/executor.js
(executeJob), core/loader.js (loadJobs, addJobDefinition), together with the
hook wiring in index.js (the context.executeJob fallback for unregistered
names).

JavaScript Map objects are modelled as association lists with unique keys,
plain objects (used for job inputs) as association lists with the object
spread operation, wall-clock instants (Date.now(), Date#getTime()) as Int
milliseconds, and child-process settlement as an explicit event value.
-/

/-- JS input values are opaque to the scheduler; the claims only need a
concrete carrier, so values are modelled as integers. -/
abbrev Val := Int

/-- A JavaScript Map (or plain object) with String keys, modelled as an
association list in insertion order. -/
abbrev JsMap (α : Type) := List (String × α)

/-- Map#get: the value at the first (in a well-formed map, only) entry with
the given key. -/
def mapGet {α : Type} : JsMap α → String → Option α
  | [], _ => none
  | (k', v) :: rest, k => if k' = k then some v else mapGet rest k

/-- Map#has. -/
def mapHas {α : Type} (m : JsMap α) (k : String) : Bool :=
  (mapGet m k).isSome

/-- Map#set: update the existing entry in place, else append. -/
def mapSet {α : Type} : JsMap α → String → α → JsMap α
  | [], k, v => [(k, v)]
  | (k', v') :: rest, k, v =>
    if k' = k then (k, v) :: rest else (k', v') :: mapSet rest k v

/-- Map#delete: remove the entry with the given key. -/
def mapDelete {α : Type} : JsMap α → String → JsMap α
  | [], _ => []
  | (k', v') :: rest, k => if k' = k then rest else (k', v') :: mapDelete rest k

/-- Well-formedness of a modelled Map: keys are pairwise distinct (true of
every real JS Map by construction). -/
def MapWF {α : Type} (m : JsMap α) : Prop :=
  (m.map Prod.fst).Nodup

/-- A plain JS object used for job inputs: an association list of
field name to value, in field order. -/
abbrev Obj := JsMap Val

/-- The JS object spread of two objects, as in the source's object literals
with the fields of the first followed by the fields of the second: fields of
the first keep their position but take the value of a matching field of the
second when one exists; fields of the second that are new are appended in
their own order. -/
def spread (a b : Obj) : Obj :=
  a.map (fun p => (p.1, (mapGet b p.1).getD p.2))
  ++ b.filter (fun p => !(mapHas a p.1))


/-- A normalized job descriptor as produced by addJobDefinition in
core/loader.js. Schedule fields mirror the descriptor's optional fields;
string-valued intervals and timeouts are resolved through external parser
libraries (human-interval, later.js) and are outside the embedding, so the
interval and timeout fields carry the numeric (millisecond) forms; the cron
field carries the raw expression, interpreted by the external cron-parser
through an oracle passed to getNextRunTime. -/
structure Job where
  name : String
  interval : Option Int := none
  cron : Option String := none
  timeout : Option Int := none
  date : Option Int := none
  inputs : Obj := []
  scriptInputs : Obj := []
  paused : Bool := false
  withoutOverlapping : Bool := true
  deriving Repr, DecidableEq

/-- Truthiness of the optional numeric fields as JS sees them: a number is
falsy exactly when it is 0 (and undefined is falsy). -/
def truthyNum : Option Int → Bool
  | none => false
  | some n => n != 0

/-- Truthiness of the optional string fields: the empty string is falsy. -/
def truthyStr : Option String → Bool
  | none => false
  | some s => s != ""

/-- The recurring-schedule test the source writes as
job.interval or job.cron (job-control.js lines 57 and 89). -/
def isRecurring (job : Job) : Bool :=
  truthyNum job.interval || truthyStr job.cron

/-- getNextRunTime from core/scheduler.js. now is Date.now(); cronNext
models the external cron-parser: cronNext expr now is the first grid
instant strictly after now, or none when the expression is malformed
(the catch branch returning null). Returns Except to model the thrown
configuration error for a descriptor that sets both date and timeout
(scheduler.js lines 22-26); all other outcomes are ok with an optional
next-run instant. -/
def getNextRunTime (cronNext : String → Int → Option Int) (job : Job)
    (now : Int) : Except String (Option Int) :=
  if job.date.isSome && job.timeout.isSome then
    .error ("Job " ++ job.name ++ ": Cannot combine date and timeout. Use one or the other.")
  else if truthyStr job.cron then
    .ok (cronNext (job.cron.getD "") now)
  else
    match job.interval with
    | some i => .ok (some (now + i))
    | none =>
      match job.timeout with
      | some t => .ok (some (now + t))
      | none =>
        match job.date with
        | some d => .ok (if now < d then some d else none)
        | none => .ok none

/-- setTimeout's signed 32-bit millisecond bound, from job-control.js line 9. -/
def MAX_SAFE_TIMEOUT : Int := 2147483647

/-- The settlement of the spawned child process, supplied by the
environment: the exit event with its code and wall-clock instant, or the
error event (spawn failure) with its instant. -/
inductive ChildEvent where
  | exited (code : Int) (t : Int)
  | errored (t : Int)
  deriving Repr, DecidableEq

/-- The observable outcome of one executeJob dispatch: the skipped object
returned by the policy checks, the resolved success value, or one of the
rejection paths (missing script, non-zero exit, spawn error). -/
inductive Outcome where
  | skipped (reason : String)
  | success (duration : Int)
  | failedNotFound
  | failedExit (code : Int) (duration : Int)
  | failedSpawn (duration : Int)
  deriving Repr, DecidableEq

/-- Everything observable about one executeJob call: its outcome, the
running map after the call settles, whether spawn was reached (the
execution sink was invoked), the running map at the moment spawn was
invoked, and the merged inputs handed to the sink via buildCommandArgs. -/
structure ExecResult where
  outcome : Outcome
  running : JsMap Int
  spawned : Bool
  runningAtSpawn : JsMap Int
  sinkInputs : Option Obj
  deriving Repr, DecidableEq

/-- The input-layer merge from executor.js line 45:
spread of job.inputs, then job.scriptInputs, then customInputs. -/
def mergeInputs (job : Job) (customInputs : Obj) : Obj :=
  spread (spread job.inputs job.scriptInputs) customInputs

/-- executeJob from core/executor.js, for a single dispatch. now is
Date.now() at dispatch; scriptExists models fs.existsSync on the script
path; child is the settlement of the spawned process. The steps mirror the
source: the overlap check (line 23), the paused check (line 31), recording
the start instant (line 42), the merge (line 45), the missing-script
rejection that deletes the record before rejecting (lines 72-88), the exit
handler (lines 96-136), and the error handler (lines 138-160, whose start
time falls back to the event instant when the record is absent). -/
def executeJob (name : String) (job : Job) (customInputs : Obj)
    (running : JsMap Int) (scriptExists : Bool) (now : Int)
    (child : ChildEvent) : ExecResult :=
  if job.withoutOverlapping && mapHas running name then
    { outcome := .skipped "already_running", running := running,
      spawned := false, runningAtSpawn := running, sinkInputs := none }
  else if job.paused then
    { outcome := .skipped "paused", running := running,
      spawned := false, runningAtSpawn := running, sinkInputs := none }
  else
    let running1 := mapSet running name now
    let inputs := mergeInputs job customInputs
    if !scriptExists then
      { outcome := .failedNotFound, running := mapDelete running1 name,
        spawned := false, runningAtSpawn := running1, sinkInputs := none }
    else
      match child with
      | .exited code t =>
        let startTime := (mapGet running1 name).getD 0
        let duration := t - startTime
        if code = 0 then
          { outcome := .success duration, running := mapDelete running1 name,
            spawned := true, runningAtSpawn := running1,
            sinkInputs := some inputs }
        else
          { outcome := .failedExit code duration,
            running := mapDelete running1 name,
            spawned := true, runningAtSpawn := running1,
            sinkInputs := some inputs }
      | .errored t =>
        let startTime := (mapGet running1 name).getD t
        let duration := t - startTime
        { outcome := .failedSpawn duration,
          running := mapDelete running1 name,
          spawned := true, runningAtSpawn := running1,
          sinkInputs := some inputs }

/-- context.executeJob from index.js lines 414-426: when the name is not in
the jobs registry, a minimal descriptor is synthesized (withoutOverlapping
false, empty inputs, no schedule, and the absent paused flag is falsy) and
execution is attempted anyway. -/
def contextExecuteJob (jobs : JsMap Job) (name : String) (customInputs : Obj)
    (running : JsMap Int) (scriptExists : Bool) (now : Int)
    (child : ChildEvent) : ExecResult :=
  match mapGet jobs name with
  | none =>
    executeJob name
      { name := name, withoutOverlapping := false, inputs := [] }
      customInputs running scriptExists now child
  | some job => executeJob name job customInputs running scriptExists now child

/-- The timer bookkeeping visible to job-control.js: the timers Map from
job name to live timer handle, plus ghost state recording every setTimeout
call ever made (armedLog pairs a job name with the handle it got) and every
handle passed to clearTimeout (cancelled). nextId supplies fresh handles. -/
structure TimerSys where
  timers : JsMap Nat
  armedLog : List (String × Nat)
  cancelled : List Nat
  nextId : Nat
  deriving Repr, DecidableEq

/-- The timer system at process start: no timers armed. -/
def initialTimers : TimerSys :=
  { timers := [], armedLog := [], cancelled := [], nextId := 0 }

/-- stopJob from job-control.js lines 106-118: when the timers Map has an
entry for the name, clear it (clearTimeout and clearInterval on the same
handle — one cancellation in the model) and delete the entry; otherwise do
nothing. -/
def stopJob (name : String) (st : TimerSys) : TimerSys :=
  match mapGet st.timers name with
  | some timer =>
    { st with cancelled := timer :: st.cancelled,
              timers := mapDelete st.timers name }
  | none => st

/-- A setTimeout call made on behalf of a job: returns the fresh handle and
records it in the ghost log. -/
def armTimer (name : String) (st : TimerSys) : Nat × TimerSys :=
  (st.nextId,
   { st with armedLog := st.armedLog ++ [(name, st.nextId)],
             nextId := st.nextId + 1 })

/-- The timer-table effect of scheduleJob from job-control.js lines 16-99.
Unknown name: warn and return (line 30). Otherwise clear any existing timer
(line 33), query getNextRunTime (line 36; a thrown error propagates to the
caller as the second component, with the mutations so far kept). No next
run: return (line 43). delay at most 0: executeJob fires immediately and,
for a recurring job, scheduleJob recurses (lines 49-61) — the recursion is
fueled, and exhausted fuel returns the state reached so far. Positive
delay: setTimeout is armed and its handle stored in the timers Map; the
over-MAX_SAFE_TIMEOUT branch (lines 65-78) and the in-range branch (lines
81-94) have the same arm-and-store effect on this state, differing only in
the armed duration and callback, which chainFire below accounts for. -/
def scheduleJob (cronNext : String → Int → Option Int) (jobs : JsMap Job)
    (now : Int) : Nat → String → TimerSys → TimerSys × Option String
  | 0, _, st => (st, none)
  | fuel + 1, name, st =>
    match mapGet jobs name with
    | none => (st, none)
    | some job =>
      let st1 := stopJob name st
      match getNextRunTime cronNext job now with
      | .error e => (st1, some e)
      | .ok none => (st1, none)
      | .ok (some nextRun) =>
        let delay := nextRun - now
        if delay ≤ 0 then
          if isRecurring job then scheduleJob cronNext jobs now fuel name st1
          else (st1, none)
        else
          let (timer, st2) := armTimer name st1
          ({ st2 with timers := mapSet st2.timers name timer }, none)

/-- The for-loop body of startJobs (job-control.js lines 134-136): apply
scheduleJob to each name in order; a thrown error aborts the remaining
iterations (the loop has no per-name error handling, and startJobs is an
async function, so the error rejects its promise). -/
def startJobsFrom (cronNext : String → Int → Option Int) (jobs : JsMap Job)
    (now : Int) (fuel : Nat) :
    List String → TimerSys → TimerSys × Option String
  | [], st => (st, none)
  | n :: rest, st =>
    match scheduleJob cronNext jobs now fuel n st with
    | (st', some e) => (st', some e)
    | (st', none) => startJobsFrom cronNext jobs now fuel rest st'

/-- startJobs from job-control.js lines 125-137: absent names mean all
registered jobs in Map insertion order (Array.from(jobs.keys())); a single
string becomes a one-element list before the loop. -/
def startJobs (cronNext : String → Int → Option Int)
    (jobNames : Option (List String)) (jobs : JsMap Job) (now : Int)
    (fuel : Nat) (st : TimerSys) : TimerSys × Option String :=
  let names := match jobNames with
    | none => jobs.map Prod.fst
    | some l => l
  startJobsFrom cronNext jobs now fuel names st

/-- The instant at which the chain of timers armed by scheduleJob first
invokes executeJob, as a function of the next-run query g (now to
getNextRunTime result) and the wall clock now at the initial call. Mirrors
lines 46-94 of job-control.js: delay at most 0 fires immediately;
delay above MAX_SAFE_TIMEOUT arms an intermediate timer for
MAX_SAFE_TIMEOUT whose callback re-runs scheduleJob — and therefore
re-queries g at the later instant — and an in-range delay arms the real
callback, which fires after exactly delay. none means the chain never
reaches executeJob within the given fuel. -/
def chainFire : Nat → (Int → Option Int) → Int → Option Int
  | 0, _, _ => none
  | fuel + 1, g, now =>
    match g now with
    | none => none
    | some nextRun =>
      let delay := nextRun - now
      if delay ≤ 0 then some now
      else if delay > MAX_SAFE_TIMEOUT then
        chainFire fuel g (now + MAX_SAFE_TIMEOUT)
      else some (now + delay)

/-- The next-run query of a job as scheduleJob performs it, for jobs whose
getNextRunTime does not throw: the context wires getNextRunTime with the
job and reads Date.now() inside, so the query is a function of now. -/
def gOf (cronNext : String → Int → Option Int) (job : Job) :
    Int → Option Int := fun now =>
  match getNextRunTime cronNext job now with
  | .ok r => r
  | .error _ => none

/-- What the timer callback armed at lines 81-92 of job-control.js does
when it fires at wall clock fireTime for an execution that will take dur
milliseconds: it calls executeJob(name) and attaches only a catch handler —
it does not await the returned promise — then, when the job is recurring,
invokes scheduleJob synchronously in the same tick. The parser query inside
that scheduleJob therefore reads Date.now() = fireTime, while the execution
promise settles at fireTime + dur. -/
structure TimerFireEffect where
  execStartsAt : Int
  execCompletesAt : Int
  parserQueriedAt : Option Int
  nextTarget : Option Int
  deriving Repr, DecidableEq

/-- The effect of the timer callback; see TimerFireEffect. -/
def timerCallback (g : Int → Option Int) (job : Job) (fireTime dur : Int) :
    TimerFireEffect :=
  { execStartsAt := fireTime
    execCompletesAt := fireTime + dur
    parserQueriedAt := if isRecurring job then some fireTime else none
    nextTarget := if isRecurring job then g fireTime else none }

/-- pauseJob from job-control.js lines 182-189. -/
def pauseJob (name : String) (jobs : JsMap Job) : Bool × JsMap Job :=
  match mapGet jobs name with
  | some job => (true, mapSet jobs name { job with paused := true })
  | none => (false, jobs)

/-- resumeJob from job-control.js lines 196-203. -/
def resumeJob (name : String) (jobs : JsMap Job) : Bool × JsMap Job :=
  match mapGet jobs name with
  | some job => (true, mapSet jobs name { job with paused := false })
  | none => (false, jobs)

/-- A raw job definition as it appears in config.jobs before normalization
(loader.js): the same optional schedule fields, with withoutOverlapping
possibly absent so the config default applies. -/
structure JobDef where
  name : String
  interval : Option Int := none
  cron : Option String := none
  timeout : Option Int := none
  date : Option Int := none
  inputs : Obj := []
  scriptInputs : Obj := []
  withoutOverlapping : Option Bool := none
  deriving Repr, DecidableEq

/-- addJobDefinition from loader.js lines 332-375: a falsy (empty) name is
skipped; otherwise the normalized job is stored with Map#set (replacing any
existing entry), paused false, and withoutOverlapping resolved by the
nullish-coalescing chain jobDef value, then config value, then true. -/
def addJobDefinition (jobDef : JobDef) (jobs : JsMap Job)
    (configWithoutOverlapping : Option Bool) : JsMap Job :=
  if jobDef.name = "" then jobs
  else
    mapSet jobs jobDef.name
      { name := jobDef.name
        interval := jobDef.interval
        cron := jobDef.cron
        timeout := jobDef.timeout
        date := jobDef.date
        inputs := jobDef.inputs
        scriptInputs := jobDef.scriptInputs
        paused := false
        withoutOverlapping :=
          jobDef.withoutOverlapping.getD (configWithoutOverlapping.getD true) }

/-- The config.jobs loop of loadJobs (loader.js lines 268-291): names seen
so far in this load are tracked in a Set; a repeated name throws, which
aborts the whole loop (and the surrounding loadJobs call) — definitions
after the duplicate are not processed, definitions before it stay
registered. The scripts-directory portion of loadJobs is filesystem I/O via
include-all and is outside this embedding. -/
def loadJobs (configWithoutOverlapping : Option Bool) :
    List JobDef → List String → JsMap Job → JsMap Job × Option String
  | [], _, jobs => (jobs, none)
  | jd :: rest, seen, jobs =>
    if seen.contains jd.name then
      (jobs, some ("Duplicate job name " ++ jd.name ++
        " in config/quest.js. Each job must have a unique name."))
    else
      loadJobs configWithoutOverlapping rest (jd.name :: seen)
        (addJobDefinition jd jobs configWithoutOverlapping)

/-- A cron oracle for runs that involve no cron jobs (the external
cron-parser is never consulted). -/
def cronNone : String → Int → Option Int := fun _ _ => none

/-- The timer handles currently live for a job name: armed by a setTimeout
made for that name and never passed to clearTimeout. -/
def liveFor (st : TimerSys) (name : String) : List Nat :=
  (st.armedLog.filter
    (fun p => p.1 == name && !(st.cancelled.contains p.2))).map Prod.snd

/-- How many timers are live for a job name. -/
def liveCount (st : TimerSys) (name : String) : Nat :=
  (liveFor st name).length

/-- The reachable-state invariant of the timer system: the timers Map is
well formed; every stored handle was armed for that very name and is not
cancelled; conversely every uncancelled armed handle is the one its name
currently stores; armed and cancelled handles are below the fresh counter;
and no handle was ever returned by two setTimeout calls. -/
structure TimerInv (st : TimerSys) : Prop where
  wf : MapWF st.timers
  stored_armed : ∀ n id, mapGet st.timers n = some id →
    (n, id) ∈ st.armedLog ∧ id ∉ st.cancelled
  armed_stored : ∀ p ∈ st.armedLog, p.2 ∉ st.cancelled →
    mapGet st.timers p.1 = some p.2
  fresh : ∀ p ∈ st.armedLog, p.2 < st.nextId
  cancelled_fresh : ∀ id ∈ st.cancelled, id < st.nextId
  uniq : (st.armedLog.map Prod.snd).Nodup

theorem mapWF_cons {α : Type} {k : String} {v : α} {rest : JsMap α} :
    MapWF ((k, v) :: rest) ↔ k ∉ rest.map Prod.fst ∧ MapWF rest := by
  simp [MapWF]

@[simp]
theorem mapGet_nil {α : Type} (k : String) : mapGet ([] : JsMap α) k = none := rfl

@[simp]
theorem mapGet_mapSet_self {α : Type} (m : JsMap α) (k : String) (v : α) :
    mapGet (mapSet m k v) k = some v := by
  induction m with
  | nil => simp [mapSet, mapGet]
  | cons p rest ih =>
    obtain ⟨k', v'⟩ := p
    by_cases h : k' = k <;> simp [mapSet, mapGet, h, ih]

theorem mapGet_mapSet_ne {α : Type} (m : JsMap α) (k k' : String) (v : α)
    (h : k' ≠ k) : mapGet (mapSet m k v) k' = mapGet m k' := by
  have hkk : ¬ (k = k') := fun hh => h hh.symm
  induction m with
  | nil =>
    simp only [mapSet, mapGet, mapGet_nil]
    rw [if_neg hkk]
  | cons p rest ih =>
    obtain ⟨k₀, v₀⟩ := p
    by_cases h₀ : k₀ = k
    · subst h₀
      simp only [mapSet, if_pos rfl, mapGet]
      rw [if_neg hkk, if_neg hkk]
    · simp only [mapSet, if_neg h₀, mapGet]
      by_cases h₁ : k₀ = k'
      · rw [if_pos h₁, if_pos h₁]
      · rw [if_neg h₁, if_neg h₁, ih]

theorem mapGet_eq_none_of_not_mem {α : Type} (m : JsMap α) (k : String)
    (h : k ∉ m.map Prod.fst) : mapGet m k = none := by
  induction m with
  | nil => rfl
  | cons p rest ih =>
    obtain ⟨k', v'⟩ := p
    simp only [List.map_cons, List.mem_cons] at h
    push_neg at h
    simp only [mapGet]
    rw [if_neg (fun hh => h.1 hh.symm)]
    exact ih h.2

theorem mapGet_mapDelete_self {α : Type} (m : JsMap α) (k : String)
    (hwf : MapWF m) : mapGet (mapDelete m k) k = none := by
  induction m with
  | nil => simp [mapDelete]
  | cons p rest ih =>
    obtain ⟨k', v'⟩ := p
    obtain ⟨hk, hwf'⟩ := mapWF_cons.mp hwf
    by_cases h : k' = k
    · subst h
      simp only [mapDelete, if_pos rfl]
      exact mapGet_eq_none_of_not_mem rest k' hk
    · simp only [mapDelete, if_neg h, mapGet]
      exact ih hwf'

theorem mapGet_mapDelete_ne {α : Type} (m : JsMap α) (k k' : String)
    (h : k' ≠ k) : mapGet (mapDelete m k) k' = mapGet m k' := by
  induction m with
  | nil => simp [mapDelete]
  | cons p rest ih =>
    obtain ⟨k₀, v₀⟩ := p
    by_cases h₀ : k₀ = k
    · subst h₀
      have e1 : mapDelete ((k₀, v₀) :: rest) k₀ = rest := by
        simp [mapDelete]
      rw [e1]
      simp only [mapGet]
      rw [if_neg (fun hh => h hh.symm)]
    · simp only [mapDelete, if_neg h₀, mapGet]
      by_cases h₁ : k₀ = k'
      · rw [if_pos h₁, if_pos h₁]
      · rw [if_neg h₁, if_neg h₁, ih]

theorem mapSet_keys_subset {α : Type} (m : JsMap α) (k : String) (v : α) :
    ((mapSet m k v).map Prod.fst) ⊆ k :: m.map Prod.fst := by
  induction m with
  | nil => simp [mapSet]
  | cons p rest ih =>
    obtain ⟨k₀, v₀⟩ := p
    by_cases h : k₀ = k
    · subst h
      simp only [mapSet, if_pos rfl, List.map_cons]
      intro x hx
      rcases List.mem_cons.mp hx with hx | hx
      · exact hx ▸ List.mem_cons_self _ _
      · exact List.mem_cons_of_mem _ (List.mem_cons_of_mem _ hx)
    · simp only [mapSet, if_neg h, List.map_cons]
      intro x hx
      rcases List.mem_cons.mp hx with hx | hx
      · subst hx
        exact List.mem_cons_of_mem _ (List.mem_cons_self _ _)
      · rcases List.mem_cons.mp (ih hx) with h1 | h1
        · exact h1 ▸ List.mem_cons_self _ _
        · exact List.mem_cons_of_mem _ (List.mem_cons_of_mem _ h1)

theorem mapDelete_keys_subset {α : Type} (m : JsMap α) (k : String) :
    ((mapDelete m k).map Prod.fst) ⊆ m.map Prod.fst := by
  induction m with
  | nil => simp [mapDelete]
  | cons p rest ih =>
    obtain ⟨k₀, v₀⟩ := p
    by_cases h : k₀ = k
    · subst h
      simp only [mapDelete, if_pos rfl, List.map_cons]
      exact fun x hx => List.mem_cons_of_mem _ hx
    · simp only [mapDelete, if_neg h, List.map_cons]
      intro x hx
      rcases List.mem_cons.mp hx with hx | hx
      · exact hx ▸ List.mem_cons_self _ _
      · exact List.mem_cons_of_mem _ (ih hx)

theorem mapWF_mapSet {α : Type} (m : JsMap α) (k : String) (v : α)
    (hwf : MapWF m) : MapWF (mapSet m k v) := by
  induction m with
  | nil => simp [mapSet, MapWF]
  | cons p rest ih =>
    obtain ⟨k', v'⟩ := p
    obtain ⟨hk, hwf'⟩ := mapWF_cons.mp hwf
    by_cases h : k' = k
    · subst h
      simp only [mapSet, if_pos rfl]
      exact mapWF_cons.mpr ⟨hk, hwf'⟩
    · simp only [mapSet, if_neg h]
      refine mapWF_cons.mpr ⟨?_, ih hwf'⟩
      intro hmem
      rcases List.mem_cons.mp (mapSet_keys_subset rest k v hmem) with h1 | h1
      · exact h h1
      · exact hk h1

theorem mapWF_mapDelete {α : Type} (m : JsMap α) (k : String)
    (hwf : MapWF m) : MapWF (mapDelete m k) := by
  induction m with
  | nil => simp [mapDelete, MapWF]
  | cons p rest ih =>
    obtain ⟨k', v'⟩ := p
    obtain ⟨hk, hwf'⟩ := mapWF_cons.mp hwf
    by_cases h : k' = k
    · subst h
      simpa [mapDelete] using hwf'
    · simp only [mapDelete, if_neg h]
      exact mapWF_cons.mpr ⟨fun hmem => hk (mapDelete_keys_subset rest k hmem), ih hwf'⟩

theorem mapGet_append {α : Type} (xs ys : JsMap α) (k : String) :
    mapGet (xs ++ ys) k =
      match mapGet xs k with
      | some v => some v
      | none => mapGet ys k := by
  induction xs with
  | nil => simp
  | cons p rest ih =>
    obtain ⟨k₀, v₀⟩ := p
    by_cases h : k₀ = k
    · simp only [List.cons_append, mapGet, if_pos h]
    · simp only [List.cons_append, mapGet, if_neg h]
      exact ih

theorem mapGet_mapValues (a : Obj) (g : String → Val → Val) (k : String) :
    mapGet (a.map (fun p => (p.1, g p.1 p.2))) k = (mapGet a k).map (g k) := by
  induction a with
  | nil => simp
  | cons p rest ih =>
    obtain ⟨k₀, v₀⟩ := p
    by_cases h : k₀ = k
    · subst h
      simp [mapGet]
    · simp only [List.map_cons, mapGet, if_neg h]
      exact ih

theorem mapGet_filterKey {α : Type} (b : JsMap α) (q : String → Bool) (k : String) :
    mapGet (b.filter (fun p => q p.1)) k = if q k then mapGet b k else none := by
  induction b with
  | nil => simp
  | cons p rest ih =>
    obtain ⟨k₀, v₀⟩ := p
    by_cases h : k₀ = k
    · subst h
      cases hq : q k₀ with
      | true => simp [List.filter_cons, hq, mapGet]
      | false =>
        simp only [List.filter_cons, hq, Bool.false_eq_true, if_false]
        rw [ih, hq]
        simp
    · cases hq : q k₀ with
      | true =>
        simp only [List.filter_cons, hq, if_true]
        simp only [mapGet, if_neg h]
        rw [ih]
      | false =>
        simp only [List.filter_cons, hq, Bool.false_eq_true, if_false]
        rw [ih]
        by_cases hqk : q k
        · rw [if_pos hqk, if_pos hqk]
          simp only [mapGet]
          rw [if_neg h]
        · rw [if_neg hqk, if_neg hqk]

/-- Looking a key up in a spread: the second object wins when it has the
key; otherwise the first object's binding (if any) survives. -/
theorem mapGet_spread (a b : Obj) (k : String) :
    mapGet (spread a b) k =
      match mapGet b k with
      | some v => some v
      | none => mapGet a k := by
  unfold spread
  rw [mapGet_append]
  rw [mapGet_mapValues a (fun key v => (mapGet b key).getD v) k]
  rw [mapGet_filterKey b (fun key => !(mapHas a key)) k]
  cases ha : mapGet a k with
  | some v =>
    cases hb : mapGet b k <;> simp [hb]
  | none =>
    simp only [Option.map_none']
    have : mapHas a k = false := by simp [mapHas, ha]
    rw [this]
    cases hb : mapGet b k <;> simp

theorem spread_nil_left (b : Obj) : spread [] b = b := by
  simp [spread, mapHas]

/-- Claim C3: for every job with withoutOverlapping true whose name is in
the in-flight running table, dispatch returns the skipped outcome with
reason already_running, attempts no execution, raises no error, and leaves
the running table unchanged; the overlap check is performed before the
paused check (the paused flag is arbitrary here and does not affect the
result). -/
theorem executeJob_overlap_skip (name : String) (job : Job)
    (customInputs : Obj) (running : JsMap Int) (scriptExists : Bool)
    (now : Int) (child : ChildEvent) (hwo : job.withoutOverlapping = true)
    (hrun : mapHas running name = true) :
    executeJob name job customInputs running scriptExists now child =
      { outcome := .skipped "already_running", running := running,
        spawned := false, runningAtSpawn := running, sinkInputs := none } := by
  simp [executeJob, hwo, hrun]

/-- Witness for executeJob_overlap_skip: a running, paused job is skipped
as already_running (not as paused), with the table untouched. -/
theorem executeJob_overlap_skip_witness :
    mapHas [("a", (5 : Int))] "a" = true ∧
    executeJob "a" { name := "a", paused := true } [] [("a", 5)] true 0
        (.exited 0 7) =
      { outcome := .skipped "already_running", running := [("a", 5)],
        spawned := false, runningAtSpawn := [("a", 5)], sinkInputs := none } :=
  ⟨by decide,
   executeJob_overlap_skip "a" { name := "a", paused := true } [] [("a", 5)]
     true 0 (.exited 0 7) rfl (by decide)⟩

/-- Claim C4: when a dispatch passes the overlap and pause checks, the
running-table entry holding the start instant exists at the moment the sink
is spawned, the sink is spawned whenever the script file exists, and after
settlement — success, non-zero exit, spawn error, or missing script — the
job's entry is gone from the running table. -/
theorem executeJob_running_cleared (name : String) (job : Job)
    (customInputs : Obj) (running : JsMap Int) (scriptExists : Bool)
    (now : Int) (child : ChildEvent) (hwf : MapWF running)
    (hov : (job.withoutOverlapping && mapHas running name) = false)
    (hp : job.paused = false) :
    mapGet (executeJob name job customInputs running scriptExists now
        child).running name = none
    ∧ ((executeJob name job customInputs running scriptExists now
        child).spawned = true →
        mapGet (executeJob name job customInputs running scriptExists now
          child).runningAtSpawn name = some now)
    ∧ (scriptExists = true →
        (executeJob name job customInputs running scriptExists now
          child).spawned = true) := by
  have hwf1 : MapWF (mapSet running name now) := mapWF_mapSet running name now hwf
  have hdel : mapGet (mapDelete (mapSet running name now) name) name = none :=
    mapGet_mapDelete_self _ name hwf1
  cases scriptExists with
  | false =>
    refine ⟨?_, ?_, ?_⟩ <;> simp [executeJob, hov, hp, hdel]
  | true =>
    cases child with
    | exited code t =>
      by_cases hc : code = 0 <;>
        refine ⟨?_, ?_, ?_⟩ <;> simp [executeJob, hov, hp, hc, hdel]
    | errored t =>
      refine ⟨?_, ?_, ?_⟩ <;> simp [executeJob, hov, hp, hdel]

/-- Witness for executeJob_running_cleared: a successful run of job a from
an empty running table starts the sink with the record present and ends
with the record cleared. -/
theorem executeJob_running_cleared_witness :
    (({ name := "a" } : Job).withoutOverlapping && mapHas ([] : JsMap Int) "a")
        = false ∧
    (mapGet (executeJob "a" { name := "a" } [] [] true 0
        (.exited 0 9)).running "a" = none
      ∧ ((executeJob "a" { name := "a" } [] [] true 0 (.exited 0 9)).spawned
          = true →
          mapGet (executeJob "a" { name := "a" } [] [] true 0
            (.exited 0 9)).runningAtSpawn "a" = some 0)
      ∧ (true = true →
          (executeJob "a" { name := "a" } [] [] true 0 (.exited 0 9)).spawned
            = true)) :=
  ⟨by decide,
   executeJob_running_cleared "a" { name := "a" } [] [] true 0 (.exited 0 9)
     (by simp [MapWF]) (by decide) rfl⟩

/-- Claim C6: a paused job that passes the overlap check is skipped with
reason paused on every dispatch — timer firing and manual trigger both
route through executeJob — without invoking the sink and without touching
the running table; after resumeJob flips paused off, the same dispatch
spawns the sink. -/
theorem executeJob_paused_skip_resume (name : String) (job : Job)
    (customInputs : Obj) (running : JsMap Int) (scriptExists : Bool)
    (now : Int) (child : ChildEvent) (jobs : JsMap Job)
    (hov : (job.withoutOverlapping && mapHas running name) = false)
    (hp : job.paused = true)
    (hjob : mapGet jobs name = some job) :
    executeJob name job customInputs running scriptExists now child =
      { outcome := .skipped "paused", running := running, spawned := false,
        runningAtSpawn := running, sinkInputs := none }
    ∧ (resumeJob name jobs).1 = true
    ∧ mapGet (resumeJob name jobs).2 name = some { job with paused := false }
    ∧ (executeJob name { job with paused := false } customInputs running true
        now child).spawned = true := by
  refine ⟨?_, ?_, ?_, ?_⟩
  · have : (job.withoutOverlapping && mapHas running name) ≠ true := by
      simp [hov]
    simp [executeJob, this, hp]
  · simp [resumeJob, hjob]
  · simp [resumeJob, hjob]
  · cases child with
    | exited code t =>
      by_cases hc : code = 0 <;> simp [executeJob, hov, hc]
    | errored t => simp [executeJob, hov]

/-- Witness for executeJob_paused_skip_resume: job a paused in a singleton
registry is skipped as paused, and after resume the dispatch spawns. -/
theorem executeJob_paused_skip_resume_witness :
    mapGet [("a", ({ name := "a", paused := true } : Job))] "a" =
        some { name := "a", paused := true } ∧
    (executeJob "a" { name := "a", paused := true } [] [] true 0
        (.exited 0 4) =
      { outcome := .skipped "paused", running := [], spawned := false,
        runningAtSpawn := [], sinkInputs := none }
    ∧ (resumeJob "a" [("a", { name := "a", paused := true })]).1 = true
    ∧ mapGet (resumeJob "a" [("a", { name := "a", paused := true })]).2 "a" =
        some { name := "a", paused := false }
    ∧ (executeJob "a" { name := "a", paused := false } [] [] true 0
        (.exited 0 4)).spawned = true) :=
  ⟨by decide,
   executeJob_paused_skip_resume "a" { name := "a", paused := true } [] []
     true 0 (.exited 0 4) [("a", { name := "a", paused := true })]
     (by decide) rfl (by decide)⟩

/-- Claim C8: the inputs handed to the sink are the three-layer merge with
precedence base job inputs, then script-declared input defaults, then
caller-supplied custom inputs, later layers overriding equal keys; in
particular custom x = 1 over base x = 0, y = 2 reaches the sink as
x = 1, y = 2. -/
theorem executeJob_input_merge :
    (∀ (job : Job) (customInputs : Obj) (k : String),
      mapGet (mergeInputs job customInputs) k =
        match mapGet customInputs k with
        | some v => some v
        | none =>
          match mapGet job.scriptInputs k with
          | some v => some v
          | none => mapGet job.inputs k)
    ∧ (executeJob "a" { name := "a", inputs := [("x", 0), ("y", 2)] }
        [("x", 1)] [] true 0 (.exited 0 3)).sinkInputs =
        some [("x", 1), ("y", 2)] := by
  constructor
  · intro job customInputs k
    unfold mergeInputs
    rw [mapGet_spread, mapGet_spread]
  · decide

/-- Claim C10: a name missing from the registry is still dispatched: the
synthesized minimal descriptor turns overlap prevention off and carries
empty inputs, so the dispatch is never skipped (whatever the running
table holds), the sink is spawned exactly when the script file exists,
the only failure with no script file is the not-found rejection, and the
sink receives exactly the caller's custom inputs. -/
theorem contextExecuteJob_unregistered (jobs : JsMap Job) (name : String)
    (customInputs : Obj) (running : JsMap Int) (scriptExists : Bool)
    (now : Int) (child : ChildEvent)
    (h : mapGet jobs name = none) :
    (∀ reason, (contextExecuteJob jobs name customInputs running scriptExists
        now child).outcome ≠ .skipped reason)
    ∧ (contextExecuteJob jobs name customInputs running scriptExists now
        child).spawned = scriptExists
    ∧ (scriptExists = false →
        (contextExecuteJob jobs name customInputs running scriptExists now
          child).outcome = .failedNotFound)
    ∧ (scriptExists = true →
        (contextExecuteJob jobs name customInputs running scriptExists now
          child).sinkInputs = some customInputs) := by
  have hmerge :
      mergeInputs { name := name, withoutOverlapping := false, inputs := [] }
        customInputs = customInputs := by
    simp [mergeInputs, spread_nil_left]
  cases scriptExists with
  | false =>
    refine ⟨?_, ?_, ?_, ?_⟩ <;>
      simp [contextExecuteJob, h, executeJob]
  | true =>
    cases child with
    | exited code t =>
      by_cases hc : code = 0 <;>
        refine ⟨?_, ?_, ?_, ?_⟩ <;>
          simp [contextExecuteJob, h, executeJob, hc, hmerge]
    | errored t =>
      refine ⟨?_, ?_, ?_, ?_⟩ <;>
        simp [contextExecuteJob, h, executeJob, hmerge]

/-- Witness for contextExecuteJob_unregistered: the unregistered name ghost
is dispatched even while an entry for it sits in the running table, and the
custom inputs pass through unchanged. -/
theorem contextExecuteJob_unregistered_witness :
    mapGet ([] : JsMap Job) "ghost" = none ∧
    ((∀ reason, (contextExecuteJob [] "ghost" [("x", 3)] [("ghost", 1)] true 0
        (.exited 0 2)).outcome ≠ .skipped reason)
    ∧ (contextExecuteJob [] "ghost" [("x", 3)] [("ghost", 1)] true 0
        (.exited 0 2)).spawned = true
    ∧ (true = false →
        (contextExecuteJob [] "ghost" [("x", 3)] [("ghost", 1)] true 0
          (.exited 0 2)).outcome = .failedNotFound)
    ∧ (true = true →
        (contextExecuteJob [] "ghost" [("x", 3)] [("ghost", 1)] true 0
          (.exited 0 2)).sinkInputs = some [("x", 3)])) :=
  ⟨rfl, contextExecuteJob_unregistered [] "ghost" [("x", 3)] [("ghost", 1)]
    true 0 (.exited 0 2) rfl⟩

/-- Counterexample to claim C2: for a recurring job with a 10ms interval
whose timer fires at 0 and whose execution completes 5ms later, the
callback's next target is 10 (a fresh parser query at the firing instant),
whereas a query relative to the completion time would give 15 — the next
run is not computed relative to the time at which the execution
completes, because the callback never awaits the execution promise. -/
theorem timerCallback_completion_counterexample :
    (timerCallback (gOf cronNone { name := "i", interval := some 10 })
        { name := "i", interval := some 10 } 0 5).nextTarget = some 10
    ∧ gOf cronNone { name := "i", interval := some 10 }
        (timerCallback (gOf cronNone { name := "i", interval := some 10 })
          { name := "i", interval := some 10 } 0 5).execCompletesAt = some 15
    ∧ ((10 : Int) ≠ (15 : Int)) := by
  refine ⟨by decide, by decide, by decide⟩

/-- Claim C2 (amended): after a scheduled firing of a recurring job —
interval or cron form — the next run is computed by a fresh parser query
relative to the wall-clock instant at which the timer callback runs (the
firing instant), not relative to the execution-completion time (the
execution promise is not awaited and settles only dur later) and not by
reusing the original target: an interval job gets fireTime plus its
interval, a cron job gets the grid instant after fireTime. -/
theorem timerCallback_fresh_query_at_fire (name c : String)
    (cronNext : String → Int → Option Int) (i fireTime dur : Int)
    (hi : i ≠ 0) (hc : c ≠ "") :
    ((timerCallback (gOf cronNext { name := name, interval := some i })
        { name := name, interval := some i } fireTime dur).nextTarget =
        some (fireTime + i)
      ∧ (timerCallback (gOf cronNext { name := name, interval := some i })
          { name := name, interval := some i } fireTime dur).parserQueriedAt =
          some fireTime
      ∧ (timerCallback (gOf cronNext { name := name, interval := some i })
          { name := name, interval := some i } fireTime dur).execCompletesAt =
          fireTime + dur)
    ∧ ((timerCallback (gOf cronNext { name := name, cron := some c })
        { name := name, cron := some c } fireTime dur).nextTarget =
        cronNext c fireTime
      ∧ (timerCallback (gOf cronNext { name := name, cron := some c })
          { name := name, cron := some c } fireTime dur).parserQueriedAt =
          some fireTime) := by
  refine ⟨⟨?_, ?_, rfl⟩, ?_, ?_⟩ <;>
    simp [timerCallback, isRecurring, truthyNum, truthyStr, gOf,
      getNextRunTime, bne_iff_ne, hi, hc]

/-- Witness for timerCallback_fresh_query_at_fire with a 10ms interval, an
hourly-style cron oracle, firing at 3 and completing at 8. -/
theorem timerCallback_fresh_query_at_fire_witness :
    ((10 : Int) ≠ 0 ∧ "0 * * * *" ≠ "") ∧
    (((timerCallback (gOf (fun _ now => some (now + 60000))
        { name := "j", interval := some 10 })
        { name := "j", interval := some 10 } 3 5).nextTarget = some (3 + 10)
      ∧ (timerCallback (gOf (fun _ now => some (now + 60000))
          { name := "j", interval := some 10 })
          { name := "j", interval := some 10 } 3 5).parserQueriedAt = some 3
      ∧ (timerCallback (gOf (fun _ now => some (now + 60000))
          { name := "j", interval := some 10 })
          { name := "j", interval := some 10 } 3 5).execCompletesAt = 3 + 5)
    ∧ ((timerCallback (gOf (fun _ now => some (now + 60000))
        { name := "j", cron := some "0 * * * *" })
        { name := "j", cron := some "0 * * * *" } 3 5).nextTarget =
        (fun (_ : String) (now : Int) => some (now + 60000)) "0 * * * *" 3
      ∧ (timerCallback (gOf (fun _ now => some (now + 60000))
          { name := "j", cron := some "0 * * * *" })
          { name := "j", cron := some "0 * * * *" } 3 5).parserQueriedAt =
          some 3)) :=
  ⟨⟨by decide, by decide⟩,
   timerCallback_fresh_query_at_fire "j" "0 * * * *"
     (fun _ now => some (now + 60000)) 10 3 5 (by decide) (by decide)⟩

/-- Counterexample to claim C5: starting the batch [bad, good] — bad
declares both a date and a timeout, good a plain interval — raises the
configuration error thrown by getNextRunTime out of the startJobs loop, so
good is never processed: no timer is armed at all and its name never
reaches the timers Map. The claim's requirement that a failure for one
name not abort processing of the remaining names does not hold. -/
theorem startJobs_abort_counterexample :
    (startJobs cronNone none
      [("bad", { name := "bad", date := some 100, timeout := some 50 }),
       ("good", { name := "good", interval := some 1000 })] 0 3
      initialTimers).2.isSome = true
    ∧ mapGet (startJobs cronNone none
        [("bad", { name := "bad", date := some 100, timeout := some 50 }),
         ("good", { name := "good", interval := some 1000 })] 0 3
        initialTimers).1.timers "good" = none
    ∧ (startJobs cronNone none
        [("bad", { name := "bad", date := some 100, timeout := some 50 }),
         ("good", { name := "good", interval := some 1000 })] 0 3
        initialTimers).1.armedLog = [] := by
  refine ⟨by decide, by decide, by decide⟩

/-- Claim C5 (amended): batch start applies the single-job schedule
operation to each name sequentially in registration order (absent names
mean all registered names in insertion order), but a schedule error thrown
for one name — such as a job declaring both a date and a timeout — aborts
processing of the remaining names: the loop after an erroring prefix never
touches the suffix. -/
theorem startJobs_sequential_abort (cronNext : String → Int → Option Int)
    (jobs : JsMap Job) (now : Int) (fuel : Nat) (as bs : List String)
    (st : TimerSys) :
    (startJobs cronNext none jobs now fuel st =
      startJobsFrom cronNext jobs now fuel (jobs.map Prod.fst) st)
    ∧ (startJobsFrom cronNext jobs now fuel (as ++ bs) st =
        match startJobsFrom cronNext jobs now fuel as st with
        | (st', none) => startJobsFrom cronNext jobs now fuel bs st'
        | (st', some e) => (st', some e)) := by
  constructor
  · rfl
  · induction as generalizing st with
    | nil => simp [startJobsFrom]
    | cons n rest ih =>
      simp only [List.cons_append, startJobsFrom]
      rcases h : scheduleJob cronNext jobs now fuel n st with ⟨st', err⟩
      cases err with
      | none => simp [ih]
      | some e => simp

/-- Counterexample to claim C9: loading the config list a, a, b stops at
the duplicate a with a hard error — the first a keeps its original
schedule (no silent overwrite) but b, which comes after the duplicate, is
never registered. The configuration error aborts loading of the other
jobs in the same load, contrary to the claim. -/
theorem loadJobs_duplicate_abort_counterexample :
    (loadJobs none
      [{ name := "a", interval := some 5 },
       { name := "a", interval := some 7 },
       { name := "b", interval := some 9 }] [] []).2.isSome = true
    ∧ mapGet (loadJobs none
        [{ name := "a", interval := some 5 },
         { name := "a", interval := some 7 },
         { name := "b", interval := some 9 }] [] []).1 "b" = none
    ∧ mapGet (loadJobs none
        [{ name := "a", interval := some 5 },
         { name := "a", interval := some 7 },
         { name := "b", interval := some 9 }] [] []).1 "a" =
        some { name := "a", interval := some 5 } := by
  refine ⟨by decide, by decide, by decide⟩

/-- Claim C9 (amended): a duplicate job name within one declarative
configuration load is surfaced as a hard configuration error and the
already-registered descriptor is not overwritten, but the error is fatal
to the whole remaining load, not only to the offending registration: once
an error occurs in a prefix of the definition list, appending further
definitions changes nothing — they are never processed. -/
theorem loadJobs_error_prefix (cfg : Option Bool) (as bs : List JobDef)
    (seen : List String) (jobs : JsMap Job) (e : String)
    (herr : (loadJobs cfg as seen jobs).2 = some e) :
    loadJobs cfg (as ++ bs) seen jobs = loadJobs cfg as seen jobs := by
  induction as generalizing seen jobs with
  | nil => simp [loadJobs] at herr
  | cons jd' rest' ih =>
    simp only [List.cons_append, loadJobs] at herr ⊢
    by_cases hc : seen.contains jd'.name = true
    · rw [if_pos hc]
      rw [if_pos hc]
    · rw [if_neg hc] at herr
      rw [if_neg hc]
      rw [if_neg hc]
      exact ih _ _ herr

theorem loadJobs_duplicate_halts (cfg : Option Bool) (jd : JobDef)
    (rest : List JobDef) (seen : List String) (jobs : JsMap Job)
    (as bs : List JobDef) (e : String)
    (hdup : seen.contains jd.name = true)
    (herr : (loadJobs cfg as seen jobs).2 = some e) :
    loadJobs cfg (jd :: rest) seen jobs =
      (jobs, some ("Duplicate job name " ++ jd.name ++
        " in config/quest.js. Each job must have a unique name."))
    ∧ loadJobs cfg (as ++ bs) seen jobs = loadJobs cfg as seen jobs := by
  constructor
  · simp only [loadJobs]
    rw [if_pos hdup]
  · exact loadJobs_error_prefix cfg as bs seen jobs e herr

/-- Witness for loadJobs_duplicate_halts: seen already holds a, and the
prefix x, x errors on its own duplicate, so a subsequent y is ignored. -/
theorem loadJobs_duplicate_halts_witness :
    (["a"].contains "a" = true
      ∧ (loadJobs none [{ name := "x" }, { name := "x" }] [] []).2 =
          some ("Duplicate job name " ++ "x" ++
            " in config/quest.js. Each job must have a unique name."))
    ∧ (loadJobs none [({ name := "a", interval := some 5 } : JobDef)] ["a"] [] =
        ([], some ("Duplicate job name " ++ "a" ++
          " in config/quest.js. Each job must have a unique name."))
      ∧ loadJobs none ([{ name := "x" }, { name := "x" }] ++ [{ name := "y" }])
          [] [] =
        loadJobs none [{ name := "x" }, { name := "x" }] [] []) :=
  ⟨⟨by decide, by decide⟩,
   loadJobs_duplicate_halts none { name := "a", interval := some 5 } [] ["a"]
     [] [{ name := "x" }, { name := "x" }] [{ name := "y" }]
     ("Duplicate job name " ++ "x" ++
       " in config/quest.js. Each job must have a unique name.")
     (by decide) (by decide)⟩

theorem chainFire_interval_never (i : Int) (hi : i > MAX_SAFE_TIMEOUT) :
    ∀ (fuel : Nat) (now : Int),
      chainFire fuel (gOf cronNone { name := "i", interval := some i }) now
        = none := by
  intro fuel
  induction fuel with
  | zero => intro _; rfl
  | succ fuel ih =>
    intro now
    have hg : gOf cronNone { name := "i", interval := some i } now =
        some (now + i) := by
      simp [gOf, getNextRunTime, truthyStr]
    have hM : MAX_SAFE_TIMEOUT = 2147483647 := rfl
    simp only [chainFire, hg]
    have h1 : ¬ (now + i - now ≤ 0) := by omega
    have h2 : now + i - now > MAX_SAFE_TIMEOUT := by omega
    rw [if_neg h1, if_pos h2]
    exact ih _

/-- Counterexample to claim C1: a plain numeric interval of 2147483648 ms
(one more than the 32-bit bound) has its first next-run computed as instant
2147483648, but the intermediate timer's callback re-runs scheduleJob,
whose fresh getNextRunTime query returns now plus the interval again — the
remaining delay is never recomputed from the original target — so the
delay stays above the bound forever and the chain never reaches executeJob
at any fuel: the job does not fire at the originally computed target (it
never fires at all). -/
theorem chainFire_interval_counterexample :
    gOf cronNone { name := "i", interval := some 2147483648 } 0 =
      some 2147483648
    ∧ ¬ ∃ (fuel : Nat) (t : Int),
        chainFire fuel
          (gOf cronNone { name := "i", interval := some 2147483648 }) 0 =
          some t := by
  constructor
  · decide
  · rintro ⟨fuel, t, h⟩
    rw [chainFire_interval_never 2147483648 (by decide) fuel 0] at h
    exact Option.noConfusion h

/-- Claim C1 (amended): the chained-timer mechanism fires at the originally
computed target instant exactly for schedule forms whose next-run query is
target-stable — re-querying at any later instant before the target returns
the same absolute target, as the cron and future-date forms do: with
enough chaining steps the job fires at exactly that target. (For plain
intervals the query is not target-stable — it returns now plus the
interval — and the chain never fires; see the counterexample.) -/
theorem chainFire_stable_target (g : Int → Option Int) (T t0 : Int)
    (fuel : Nat)
    (hstable : ∀ m, t0 ≤ m → m < T → g m = some T)
    (h0 : t0 < T) (hfuel : T - t0 ≤ MAX_SAFE_TIMEOUT * fuel) :
    chainFire fuel g t0 = some T := by
  have hM : MAX_SAFE_TIMEOUT = 2147483647 := rfl
  induction fuel generalizing t0 with
  | zero =>
    exfalso
    simp only [Nat.cast_zero, mul_zero] at hfuel
    omega
  | succ fuel ih =>
    have hg : g t0 = some T := hstable t0 le_rfl h0
    simp only [chainFire, hg]
    have h1 : ¬ (T - t0 ≤ 0) := by omega
    rw [if_neg h1]
    by_cases hbig : T - t0 > MAX_SAFE_TIMEOUT
    · rw [if_pos hbig]
      apply ih
      · intro m hm1 hm2
        exact hstable m (by omega) hm2
      · omega
      · have : (MAX_SAFE_TIMEOUT : Int) * (fuel + 1 : Nat) =
            MAX_SAFE_TIMEOUT * fuel + MAX_SAFE_TIMEOUT := by
          push_cast
          ring
        omega
    · rw [if_neg hbig]
      congr 1
      omega

/-- Witness for chainFire_stable_target: a one-shot date at instant
3000000000 (about 34.7 days out, beyond the 32-bit bound) scheduled at 0
fires at exactly 3000000000 after one intermediate hop. -/
theorem chainFire_stable_target_witness :
    (∀ m : Int, 0 ≤ m → m < 3000000000 →
      gOf cronNone { name := "d", date := some 3000000000 } m =
        some 3000000000)
    ∧ (0 : Int) < 3000000000
    ∧ (3000000000 : Int) - 0 ≤ MAX_SAFE_TIMEOUT * 2
    ∧ chainFire 2 (gOf cronNone { name := "d", date := some 3000000000 }) 0 =
        some 3000000000 := by
  have hst : ∀ m : Int, 0 ≤ m → m < 3000000000 →
      gOf cronNone { name := "d", date := some 3000000000 } m =
        some 3000000000 := by
    intro m h1 h2
    simp [gOf, getNextRunTime, truthyStr, h2]
  exact ⟨hst, by decide, by decide,
    chainFire_stable_target _ 3000000000 0 2 hst (by decide) (by decide)⟩

theorem length_le_one_of_forall_eq {l : List Nat}
    (hc : ∀ x ∈ l, ∀ y ∈ l, x = y) (hn : l.Nodup) : l.length ≤ 1 := by
  match l with
  | [] => simp
  | [a] => simp
  | a :: b :: rest =>
    exfalso
    have hab : a = b := hc a (by simp) b (by simp)
    have := List.nodup_cons.mp hn
    exact this.1 (hab ▸ List.mem_cons_self b rest)

theorem nodup_snd_inj {l : List (String × Nat)} (h : (l.map Prod.snd).Nodup)
    {a b : String} {x : Nat} (ha : (a, x) ∈ l) (hb : (b, x) ∈ l) : a = b := by
  induction l with
  | nil => cases ha
  | cons p rest ih =>
    have hmap : ((p :: rest).map Prod.snd) = p.2 :: rest.map Prod.snd := rfl
    rw [hmap] at h
    have hsnd : p.2 ∉ rest.map Prod.snd ∧ (rest.map Prod.snd).Nodup :=
      List.nodup_cons.mp h
    rcases List.mem_cons.mp ha with ha' | ha' <;>
      rcases List.mem_cons.mp hb with hb' | hb'
    · rw [← ha'] at hb'
      exact (congrArg Prod.fst hb').symm
    · exfalso
      apply hsnd.1
      have : x ∈ rest.map Prod.snd := List.mem_map.mpr ⟨(b, x), hb', rfl⟩
      have hx : p.2 = x := by rw [← ha']
      rw [hx]
      exact this
    · exfalso
      apply hsnd.1
      have : x ∈ rest.map Prod.snd := List.mem_map.mpr ⟨(a, x), ha', rfl⟩
      have hx : p.2 = x := by rw [← hb']
      rw [hx]
      exact this
    · exact ih hsnd.2 ha' hb'

theorem stopJob_get_none (name : String) (st : TimerSys)
    (hwf : MapWF st.timers) :
    mapGet (stopJob name st).timers name = none := by
  cases h0 : mapGet st.timers name with
  | none => simp [stopJob, h0]
  | some id =>
    simp only [stopJob, h0]
    exact mapGet_mapDelete_self _ _ hwf

theorem stopJob_idem (name : String) (st : TimerSys)
    (hwf : MapWF st.timers) :
    stopJob name (stopJob name st) = stopJob name st := by
  cases h0 : mapGet st.timers name with
  | none =>
    have h1 : stopJob name st = st := by simp [stopJob, h0]
    rw [h1, h1]
  | some id =>
    have h1 : stopJob name st =
        { st with cancelled := id :: st.cancelled,
                  timers := mapDelete st.timers name } := by
      simp [stopJob, h0]
    rw [h1]
    have h2 : mapGet (mapDelete st.timers name) name = none :=
      mapGet_mapDelete_self _ _ hwf
    simp [stopJob, h2]

theorem stopJob_inv (name : String) (st : TimerSys) (hinv : TimerInv st) :
    TimerInv (stopJob name st) := by
  cases h0 : mapGet st.timers name with
  | none => simpa [stopJob, h0] using hinv
  | some id =>
    have hid := hinv.stored_armed name id h0
    have hrepr : stopJob name st =
        { st with cancelled := id :: st.cancelled,
                  timers := mapDelete st.timers name } := by
      simp [stopJob, h0]
    rw [hrepr]
    constructor
    · exact mapWF_mapDelete _ _ hinv.wf
    · intro n' id' hget
      by_cases hn : n' = name
      · subst hn
        rw [mapGet_mapDelete_self _ _ hinv.wf] at hget
        exact Option.noConfusion hget
      · rw [mapGet_mapDelete_ne _ _ _ hn] at hget
        obtain ⟨hmem, hnc⟩ := hinv.stored_armed n' id' hget
        refine ⟨hmem, ?_⟩
        intro hc
        rcases List.mem_cons.mp hc with hc | hc
        · subst hc
          exact hn (nodup_snd_inj hinv.uniq hmem hid.1)
        · exact hnc hc
    · intro p hp hnc
      have hnc0 : p.2 ∉ st.cancelled := fun hc =>
        hnc (List.mem_cons_of_mem _ hc)
      have hne : p.2 ≠ id := fun he =>
        hnc (he ▸ List.mem_cons_self _ _)
      have hold := hinv.armed_stored p hp hnc0
      by_cases hn : p.1 = name
      · exfalso
        rw [hn, h0] at hold
        exact hne (Option.some.inj hold).symm
      · rw [mapGet_mapDelete_ne _ _ _ hn]
        exact hold
    · exact hinv.fresh
    · intro i hi
      rcases List.mem_cons.mp hi with hi | hi
      · subst hi
        exact hinv.fresh _ hid.1
      · exact hinv.cancelled_fresh _ hi
    · exact hinv.uniq

theorem arm_inv (name : String) (st : TimerSys) (hinv : TimerInv st)
    (hnone : mapGet st.timers name = none) :
    TimerInv { timers := mapSet st.timers name st.nextId,
               armedLog := st.armedLog ++ [(name, st.nextId)],
               cancelled := st.cancelled,
               nextId := st.nextId + 1 } := by
  constructor
  · exact mapWF_mapSet _ _ _ hinv.wf
  · intro n' id' hget
    by_cases hn : n' = name
    · subst hn
      rw [mapGet_mapSet_self] at hget
      obtain rfl := Option.some.inj hget
      refine ⟨List.mem_append_right _ (List.mem_singleton.mpr rfl), ?_⟩
      intro hc
      exact absurd (hinv.cancelled_fresh _ hc) (lt_irrefl _)
    · rw [mapGet_mapSet_ne _ _ _ _ hn] at hget
      obtain ⟨hmem, hnc⟩ := hinv.stored_armed n' id' hget
      exact ⟨List.mem_append_left _ hmem, hnc⟩
  · intro p hp hnc
    rcases List.mem_append.mp hp with hp | hp
    · have hold := hinv.armed_stored p hp hnc
      by_cases hn : p.1 = name
      · exfalso
        rw [hn, hnone] at hold
        exact Option.noConfusion hold
      · rw [mapGet_mapSet_ne _ _ _ _ hn]
        exact hold
    · obtain rfl := List.mem_singleton.mp hp
      rw [mapGet_mapSet_self]
  · intro p hp
    rcases List.mem_append.mp hp with hp | hp
    · exact lt_trans (hinv.fresh p hp) (lt_add_one _)
    · obtain rfl := List.mem_singleton.mp hp
      exact lt_add_one _
  · intro i hi
    exact lt_trans (hinv.cancelled_fresh i hi) (lt_add_one _)
  · have hmap : ((st.armedLog ++ [(name, st.nextId)]).map Prod.snd) =
        st.armedLog.map Prod.snd ++ [st.nextId] := by
      simp
    rw [hmap]
    rw [List.nodup_append]
    refine ⟨hinv.uniq, List.nodup_singleton _, ?_⟩
    intro x hx hx'
    obtain rfl := List.mem_singleton.mp hx'
    obtain ⟨p, hp, hpe⟩ := List.mem_map.mp hx
    have hlt := hinv.fresh p hp
    rw [hpe] at hlt
    exact absurd hlt (lt_irrefl _)

theorem scheduleJob_inv (cronNext : String → Int → Option Int)
    (jobs : JsMap Job) (now : Int) :
    ∀ (fuel : Nat) (name : String) (st : TimerSys), TimerInv st →
      TimerInv (scheduleJob cronNext jobs now fuel name st).1 := by
  intro fuel
  induction fuel with
  | zero => intro name st h; exact h
  | succ fuel ih =>
    intro name st h
    have h1 : TimerInv (stopJob name st) := stopJob_inv name st h
    cases hj : mapGet jobs name with
    | none => simpa [scheduleJob, hj] using h
    | some job =>
      cases hg : getNextRunTime cronNext job now with
      | error e => simpa [scheduleJob, hj, hg] using h1
      | ok r =>
        cases r with
        | none => simpa [scheduleJob, hj, hg] using h1
        | some nextRun =>
          by_cases hd : nextRun - now ≤ 0
          · by_cases hr : isRecurring job
            · have := ih name (stopJob name st) h1
              simpa [scheduleJob, hj, hg, hd, hr] using this
            · simpa [scheduleJob, hj, hg, hd, hr] using h1
          · have hnone := stopJob_get_none name st h.wf
            have := arm_inv name (stopJob name st) h1 hnone
            simpa [scheduleJob, hj, hg, hd, armTimer] using this

theorem inv_liveCount (st : TimerSys) (hinv : TimerInv st) (n : String) :
    liveCount st n ≤ 1 := by
  unfold liveCount liveFor
  apply length_le_one_of_forall_eq
  · intro x hx y hy
    obtain ⟨p, hp, hpx⟩ := List.mem_map.mp hx
    obtain ⟨q, hq, hqy⟩ := List.mem_map.mp hy
    obtain ⟨hp1, hp2⟩ := List.mem_filter.mp hp
    obtain ⟨hq1, hq2⟩ := List.mem_filter.mp hq
    rw [Bool.and_eq_true] at hp2 hq2
    obtain ⟨hpn, hpc⟩ := hp2
    obtain ⟨hqn, hqc⟩ := hq2
    have hpn' : p.1 = n := by simpa using hpn
    have hqn' : q.1 = n := by simpa using hqn
    have hpc' : p.2 ∉ st.cancelled := by simpa using hpc
    have hqc' : q.2 ∉ st.cancelled := by simpa using hqc
    have e1 := hinv.armed_stored p hp1 hpc'
    have e2 := hinv.armed_stored q hq1 hqc'
    rw [hpn'] at e1
    rw [hqn'] at e2
    rw [e1] at e2
    rw [← hpx, ← hqy]
    exact Option.some.inj e2
  · exact hinv.uniq.sublist ((List.filter_sublist _).map Prod.snd)

/-- Claim C7: stopJob is idempotent — a second stop in a row changes
nothing and the name has no timer afterwards — and scheduling twice in a
row keeps the timer bookkeeping invariant, under which at most one live
(armed and never cleared) timer exists per job name at any reachable
state: the first call's timer is cancelled by the second call's stopJob
before the second timer is armed. -/
theorem timers_idempotence (name n : String) (st : TimerSys)
    (cronNext : String → Int → Option Int) (jobs : JsMap Job) (now : Int)
    (fuel fuel' : Nat) (hinv : TimerInv st) :
    stopJob name (stopJob name st) = stopJob name st
    ∧ mapGet (stopJob name st).timers name = none
    ∧ TimerInv (scheduleJob cronNext jobs now fuel' name
        (scheduleJob cronNext jobs now fuel name st).1).1
    ∧ liveCount (scheduleJob cronNext jobs now fuel' name
        (scheduleJob cronNext jobs now fuel name st).1).1 n ≤ 1 := by
  have hinv2 : TimerInv (scheduleJob cronNext jobs now fuel' name
      (scheduleJob cronNext jobs now fuel name st).1).1 :=
    scheduleJob_inv cronNext jobs now fuel' name _
      (scheduleJob_inv cronNext jobs now fuel name st hinv)
  exact ⟨stopJob_idem name st hinv.wf, stopJob_get_none name st hinv.wf,
    hinv2, inv_liveCount _ hinv2 n⟩

/-- Witness for timers_idempotence: from the fresh timer system, job a
with a 5s interval scheduled twice leaves at most one live timer for a. -/
theorem timers_idempotence_witness :
    TimerInv initialTimers ∧
    (stopJob "a" (stopJob "a" initialTimers) = stopJob "a" initialTimers
    ∧ mapGet (stopJob "a" initialTimers).timers "a" = none
    ∧ TimerInv (scheduleJob cronNone
        [("a", { name := "a", interval := some 5000 })] 0 1 "a"
        (scheduleJob cronNone [("a", { name := "a", interval := some 5000 })]
          0 1 "a" initialTimers).1).1
    ∧ liveCount (scheduleJob cronNone
        [("a", { name := "a", interval := some 5000 })] 0 1 "a"
        (scheduleJob cronNone [("a", { name := "a", interval := some 5000 })]
          0 1 "a" initialTimers).1).1 "a" ≤ 1) :=
  have hinv : TimerInv initialTimers := by
    constructor <;> simp [initialTimers, MapWF]
  ⟨hinv, timers_idempotence "a" "a" initialTimers cronNone
    [("a", { name := "a", interval := some 5000 })] 0 1 1 hinv⟩
